import Mathlib

/-!
Verification of the ClawBot Polymarket data feed (src/datafeed.py).

The file embeds the data model and the three operations the spec talks
about — snapshot ingestion (`fetch_politics_markets`), stream updates
(the `orderbook_update` handler of `connect_clob_ws`) and the ranked
query (`get_top_mispricing`) — as executable Lean definitions, and
proves or refutes the specified properties about them.

Prices and volumes are embedded as rationals (the Python code uses
floats, but every claim is about exact arithmetic identities such as
`spread = abs(yes - no)`, which the source computes directly on the
values it receives; no float rounding is at issue in any claim).

The store `self.markets : Dict[str, MarketSnapshot]` is embedded as an
association list in insertion order, with Python dict semantics:
assigning to an existing key overwrites in place, assigning to a fresh
key appends.
-/

/-- The `MarketSnapshot` dataclass of src/datafeed.py. -/
structure MarketSnapshot where
  market_id : String
  yes_price : ℚ
  no_price : ℚ
  spread : ℚ
  volume_usd : ℚ
  category : String
deriving DecidableEq, Repr, Inhabited

/-- One element of a raw Gamma REST market record's "outcomes" list:
only the "price" field is consumed by the code. -/
structure RawOutcome where
  price : ℚ
deriving DecidableEq, Repr, Inhabited

/-- A raw market record from the Gamma REST discovery response, with
the fields the code reads: `m["id"]`, `m["outcomes"]`,
`m.get("volume24h", 0)` / `m["volume24h"]`, `m["category"]`. The
`volume24h` field may be absent (`none`), which the code's `.get`
defaults to `0`. -/
structure RawMarket where
  id : String
  outcomes : List RawOutcome
  volume24h : Option ℚ
  category : String
deriving DecidableEq, Repr, Inhabited

/-- A CLOB WebSocket message as the handler reads it: `data.get("type")`,
`data["market_id"]`, `data["yes_bid"]`, `data["no_ask"]`. -/
structure StreamMessage where
  type : String
  market_id : String
  yes_bid : ℚ
  no_ask : ℚ
deriving DecidableEq, Repr, Inhabited

/-- The store `self.markets : Dict[str, MarketSnapshot]`, as an
association list in insertion order. -/
abbrev Store := List (String × MarketSnapshot)

/-- Membership test `k in d` on a Python dict. -/
def keyIn (store : Store) (k : String) : Bool :=
  store.any fun p => p.1 == k

/-- Assignment `d[k] = v` on a Python dict: overwrite in place if the key
exists, append otherwise. -/
def dictSet (store : Store) (k : String) (v : MarketSnapshot) : Store :=
  if keyIn store k then
    store.map fun p => if p.1 == k then (k, v) else p
  else
    store ++ [(k, v)]

/-- The call `self.markets.update` with the dict comprehension keyed by
`market_id` (src/datafeed.py line 59): each record of the batch is written into the
dict under its own `market_id`, later duplicates overwriting earlier
ones. -/
def upsertBatch (store : Store) (batch : List MarketSnapshot) : Store :=
  batch.foldl (fun s m => dictSet s m.market_id m) store

/-- The lookup `m.get` of the volume24h field with default 0
(src/datafeed.py line 50). -/
def volume24hOrZero (m : RawMarket) : ℚ :=
  m.volume24h.getD 0

/-- Building one `MarketSnapshot` from a raw record
(src/datafeed.py lines 51-58). `m["outcomes"][0]["price"]`,
`m["outcomes"][1]["price"]` and `m["volume24h"]` are plain subscripts:
a missing outcome or volume field raises, which the embedding returns
as `Except.error`. -/
def mkSnapshot (m : RawMarket) : Except String MarketSnapshot :=
  match m.outcomes[0]?, m.outcomes[1]?, m.volume24h with
  | some o0, some o1, some v =>
      .ok { market_id := m.id
            yes_price := o0.price
            no_price := o1.price
            spread := |o0.price - o1.price|
            volume_usd := v
            category := m.category }
  | none, _, _ => .error "IndexError: outcomes[0]"
  | some _, none, _ => .error "IndexError: outcomes[1]"
  | some _, some _, none => .error "KeyError: volume24h"

/-- The record loop of `fetch_politics_markets`
(src/datafeed.py lines 48-58): for each record passing the volume
filter, build a snapshot and append it; an exception from any record
propagates and aborts the whole fetch (there is no try/except), so the
loop is fallible as a whole. -/
def processRecords : List RawMarket → Except String (List MarketSnapshot)
  | [] => .ok []
  | m :: rest =>
    if volume24hOrZero m > 1000000 then
      match mkSnapshot m with
      | .ok s => (processRecords rest).map fun ms => s :: ms
      | .error e => .error e
    else
      processRecords rest

/-- The function `fetch_politics_markets` as it affects the store: on success the
produced batch is upserted (line 59) and returned; an exception leaves
the store untouched (the `update` on line 59 is never reached). -/
def fetchAndIngest (store : Store) (data : List RawMarket) :
    Except String (Store × List MarketSnapshot) :=
  match processRecords data with
  | .ok ms => .ok (upsertBatch store ms, ms)
  | .error e => .error e

/-- The body of the `orderbook_update` branch
(src/datafeed.py lines 76-79): if the `market_id` is a known key, set
`yes_price` and `no_price` on that entry (nothing else is written — in
particular `spread` is not recomputed); otherwise do nothing. -/
def applyUpdate (store : Store) (mid : String) (yes_bid no_ask : ℚ) : Store :=
  if keyIn store mid then
    store.map fun p =>
      if p.1 == mid then
        (p.1, { p.2 with yes_price := yes_bid, no_price := no_ask })
      else p
  else
    store

/-- One message of the WebSocket loop (src/datafeed.py lines 74-79):
only messages with `type == "orderbook_update"` touch the store. -/
def handleMessage (store : Store) (msg : StreamMessage) : Store :=
  if msg.type == "orderbook_update" then
    applyUpdate store msg.market_id msg.yes_bid msg.no_ask
  else
    store

/-- The view `self.markets.values()` in insertion order. -/
def values (store : Store) : List MarketSnapshot :=
  store.map Prod.snd

/-- The query `get_top_mispricing` (src/datafeed.py lines 82-88):
`sorted(self.markets.values(), key=lambda m: m.spread, reverse=True)[:top_n]`.
Python's `sorted` is stable and `reverse=True` does not reorder equal
elements, so it is a stable sort under the relation
"a before b when b.spread ≤ a.spread". -/
def getTopMispricing (store : Store) (top_n : Nat) : List MarketSnapshot :=
  ((values store).mergeSort fun a b => b.spread ≤ a.spread).take top_n

/-- One externally driven mutation of the store: a successful snapshot
fetch (with its `update`), or one WebSocket message. -/
inductive Step : Store → Store → Prop
  | snapshot (s : Store) (data : List RawMarket) (ms : List MarketSnapshot)
      (h : processRecords data = .ok ms) : Step s (upsertBatch s ms)
  | stream (s : Store) (msg : StreamMessage) : Step s (handleMessage s msg)

/-- Store states reachable from the initial empty dict
(`self.markets = {}` in `__init__`). -/
inductive Reachable : Store → Prop
  | init : Reachable []
  | step {s s2 : Store} : Reachable s → Step s s2 → Reachable s2

/-- The two prices the code consumes from a raw record are in [0,1]
(spec §3: prices are probabilities). -/
def rawInRange (m : RawMarket) : Bool :=
  (m.outcomes.take 2).all fun o => decide (0 ≤ o.price ∧ o.price ≤ 1)

/-- A stream message carries prices in [0,1]. -/
def msgInRange (msg : StreamMessage) : Bool :=
  decide (0 ≤ msg.yes_bid ∧ msg.yes_bid ≤ 1 ∧ 0 ≤ msg.no_ask ∧ msg.no_ask ≤ 1)

/-- A step whose external input carries prices in [0,1], the range the
spec's data model assigns to venue prices. -/
inductive StepInRange : Store → Store → Prop
  | snapshot (s : Store) (data : List RawMarket) (ms : List MarketSnapshot)
      (h : processRecords data = .ok ms)
      (hin : data.all rawInRange = true) : StepInRange s (upsertBatch s ms)
  | stream (s : Store) (msg : StreamMessage)
      (hin : msgInRange msg = true) : StepInRange s (handleMessage s msg)

/-- Store states reachable from the empty dict using only in-range
inputs. -/
inductive ReachableInRange : Store → Prop
  | init : ReachableInRange []
  | step {s s2 : Store} : ReachableInRange s → StepInRange s s2 → ReachableInRange s2

/-- Entry-level store invariant of spec §3: prices in [0,1],
non-negative spread. -/
def entryOk (m : MarketSnapshot) : Bool :=
  decide (0 ≤ m.yes_price ∧ m.yes_price ≤ 1 ∧
          0 ≤ m.no_price ∧ m.no_price ≤ 1 ∧ 0 ≤ m.spread)

/-- Whole-store price/spread invariant. -/
def storeOk (store : Store) : Bool :=
  store.all fun p => entryOk p.2

/-- Key-value coherence: each dict key equals the `market_id` field of
the snapshot stored under it. -/
def keyCoherent (store : Store) : Bool :=
  store.all fun p => p.2.market_id == p.1

/-- Last occurrence of a key in a batch: the value a Python dict built
from the batch would hold under that key (helper for reasoning about
duplicate ids inside one batch). -/
def lookupLast : List MarketSnapshot → String → Option MarketSnapshot
  | [], _ => none
  | m :: rest, k =>
    match lookupLast rest k with
    | some v => some v
    | none => if m.market_id == k then some m else none

/-- Rewrite one store entry to the last batch value under its key, if
the batch mentions that key (helper). -/
def applyLast (b : List MarketSnapshot) (p : String × MarketSnapshot) :
    String × MarketSnapshot :=
  match lookupLast b p.1 with
  | some v => (p.1, v)
  | none => p

/-- Concrete raw discovery record used in witnesses: YES price 1,
NO price 0, 24h volume 2,000,000, category politics. -/
def rawDemoA : RawMarket :=
  { id := "A", outcomes := [⟨1⟩, ⟨0⟩], volume24h := some 2000000,
    category := "politics" }

/-- Concrete raw discovery record used in witnesses: YES price 0,
NO price 1, 24h volume 3,000,000. -/
def rawDemoB : RawMarket :=
  { id := "B", outcomes := [⟨0⟩, ⟨1⟩], volume24h := some 3000000,
    category := "politics" }

/-- A raw record with no volume24h field at all. -/
def rawNoVolume : RawMarket :=
  { id := "N", outcomes := [⟨1⟩, ⟨0⟩], volume24h := none,
    category := "politics" }

/-- A raw record that passes the volume filter but carries only one
outcome price. -/
def rawMalformed : RawMarket :=
  { id := "M", outcomes := [⟨1⟩], volume24h := some 5000000,
    category := "politics" }

/-- The snapshot the code builds from `rawDemoA`. -/
def snapDemoA : MarketSnapshot :=
  { market_id := "A", yes_price := 1, no_price := 0, spread := 1,
    volume_usd := 2000000, category := "politics" }

/-- The snapshot the code builds from `rawDemoB`. -/
def snapDemoB : MarketSnapshot :=
  { market_id := "B", yes_price := 0, no_price := 1, spread := 1,
    volume_usd := 3000000, category := "politics" }

/-- A stream update for the known market "A". -/
def msgDemoA : StreamMessage :=
  { type := "orderbook_update", market_id := "A", yes_bid := 1, no_ask := 1 }

/-- A stream update for market "Z", absent from the demo store. -/
def msgDemoZ : StreamMessage :=
  { type := "orderbook_update", market_id := "Z", yes_bid := 0, no_ask := 1 }

/-- Modelled from the spec: the spec's data model (§3) gives every
entry a `last_updated` logical timestamp, "set on every mutation", and
the `top_by_spread` contract is stated in terms of it. The
implementation in src/datafeed.py has no such field, so to state that
contract at all the store operations are replayed here with a ghost
timestamp attached to each entry; everything else is copied from the
implementation (in particular the query sorts by spread alone, stably,
as `sorted(values, key=spread, reverse=True)` does, and a stream
update does not recompute the spread). -/
abbrev TimedStore := List (String × MarketSnapshot × ℕ)

/-- Modelled from the spec: dict assignment with a ghost
`last_updated` stamp on the written entry. -/
def tDictSet (store : TimedStore) (k : String) (v : MarketSnapshot)
    (now : ℕ) : TimedStore :=
  if store.any (fun p => p.1 == k) then
    store.map fun p => if p.1 == k then (k, v, now) else p
  else
    store ++ [(k, v, now)]

/-- Modelled from the spec: snapshot ingestion with ghost timestamps. -/
def tUpsertBatch (store : TimedStore) (batch : List MarketSnapshot)
    (now : ℕ) : TimedStore :=
  batch.foldl (fun s m => tDictSet s m.market_id m now) store

/-- Modelled from the spec: the stream-update handler with a ghost
timestamp bump on the touched entry; as in the code, only the two
prices change on the snapshot itself. -/
def tApplyUpdate (store : TimedStore) (mid : String) (yes_bid no_ask : ℚ)
    (now : ℕ) : TimedStore :=
  if store.any (fun p => p.1 == mid) then
    store.map fun p =>
      if p.1 == mid then
        (p.1, { p.2.1 with yes_price := yes_bid, no_price := no_ask }, now)
      else p
  else
    store

/-- Modelled from the spec: `get_top_mispricing` on the timed store —
the sort key and the stable sort are exactly the implementation's, the
timestamp merely rides along so the spec's tie-break can be stated. -/
def tGetTopMispricing (store : TimedStore) (top_n : Nat) :
    List (MarketSnapshot × ℕ) :=
  ((store.map Prod.snd).mergeSort fun a b => b.1.spread ≤ a.1.spread).take top_n

/-- The recency tie-break the spec claims for `top_by_spread`: whenever
a returned entry precedes another with equal spread, the earlier one
carries the later (or equal) `last_updated`. -/
def recencyTieBreak (l : List (MarketSnapshot × ℕ)) : Prop :=
  l.Pairwise fun a b => a.1.spread = b.1.spread → b.2 ≤ a.2

/-- Whether a fallible computation ended in a raised exception. -/
def exceptFailed {α : Type} : Except String α → Bool
  | .error _ => true
  | .ok _ => false

/-- A legacy low-volume entry used in witnesses: it predates the
demo fetch and is below the volume threshold. -/
def snapLowVol : MarketSnapshot :=
  { market_id := "L", yes_price := 1, no_price := 0, spread := 1,
    volume_usd := 5, category := "politics" }

lemma keyIn_iff {s : Store} {k : String} :
    keyIn s k = true ↔ ∃ p ∈ s, p.1 = k := by
  simp [keyIn, List.any_eq_true]

lemma keyIn_eq_false_iff {s : Store} {k : String} :
    keyIn s k = false ↔ ∀ p ∈ s, p.1 ≠ k := by
  rw [← Bool.not_eq_true, keyIn_iff]
  constructor
  · intro h p hp hk
    exact h ⟨p, hp, hk⟩
  · rintro h ⟨p, hp, hk⟩
    exact h p hp hk

lemma upsertBatch_nil {s : Store} : upsertBatch s [] = s := rfl

lemma upsertBatch_cons {s : Store} {m : MarketSnapshot}
    {b : List MarketSnapshot} :
    upsertBatch s (m :: b) = upsertBatch (dictSet s m.market_id m) b := rfl

lemma mem_dictSet {s : Store} {k : String} {v : MarketSnapshot}
    {p : String × MarketSnapshot} (h : p ∈ dictSet s k v) :
    p ∈ s ∨ p = (k, v) := by
  unfold dictSet at h
  split at h
  · obtain ⟨q, hq, hfq⟩ := List.mem_map.mp h
    by_cases hqk : q.1 = k
    · right
      rw [← hfq]
      simp [hqk]
    · left
      have heq : (if q.1 == k then (k, v) else q) = q := by simp [hqk]
      rw [heq] at hfq
      exact hfq ▸ hq
  · rcases List.mem_append.mp h with h1 | h1
    · exact Or.inl h1
    · exact Or.inr (by simpa using h1)

lemma dictSet_key_eq {s : Store} {k : String} {v : MarketSnapshot}
    {p : String × MarketSnapshot} (h : p ∈ dictSet s k v) (hk : p.1 = k) :
    p = (k, v) := by
  unfold dictSet at h
  split at h
  · obtain ⟨q, hq, hfq⟩ := List.mem_map.mp h
    by_cases hqk : q.1 = k
    · rw [← hfq]
      simp [hqk]
    · have : (if q.1 == k then (k, v) else q) = q := by simp [hqk]
      rw [this] at hfq
      exact absurd (hfq ▸ hk) hqk
  · next hno =>
    rcases List.mem_append.mp h with h1 | h1
    · exact absurd hk (keyIn_eq_false_iff.mp (Bool.eq_false_iff.mpr hno) p h1)
    · simpa using h1

lemma keyIn_dictSet_self {s : Store} {k : String} {v : MarketSnapshot} :
    keyIn (dictSet s k v) k = true := by
  unfold dictSet
  split
  · next hin =>
    obtain ⟨p, hp, hpk⟩ := keyIn_iff.mp hin
    exact keyIn_iff.mpr ⟨(k, v), List.mem_map.mpr ⟨p, hp, by simp [hpk]⟩, rfl⟩
  · exact keyIn_iff.mpr ⟨(k, v), List.mem_append.mpr (Or.inr (by simp)), rfl⟩

lemma keyIn_dictSet_of {s : Store} {k k2 : String} {v : MarketSnapshot}
    (h : keyIn s k2 = true) : keyIn (dictSet s k v) k2 = true := by
  obtain ⟨p, hp, hpk⟩ := keyIn_iff.mp h
  unfold dictSet
  split
  · by_cases hpk2 : p.1 = k
    · exact keyIn_iff.mpr ⟨(k, v), List.mem_map.mpr ⟨p, hp, by simp [hpk2]⟩,
        by rw [← hpk, hpk2]⟩
    · exact keyIn_iff.mpr ⟨p, List.mem_map.mpr ⟨p, hp, by simp [hpk2]⟩, hpk⟩
  · exact keyIn_iff.mpr ⟨p, List.mem_append.mpr (Or.inl hp), hpk⟩

lemma mem_upsertBatch {b : List MarketSnapshot} :
    ∀ {s : Store} {p : String × MarketSnapshot}, p ∈ upsertBatch s b →
      p ∈ s ∨ ∃ m ∈ b, p = (m.market_id, m) := by
  induction b with
  | nil => intro s p h; exact Or.inl h
  | cons m rest ih =>
    intro s p h
    rcases ih (s := dictSet s m.market_id m) h with h1 | h1
    · rcases mem_dictSet h1 with h2 | h2
      · exact Or.inl h2
      · exact Or.inr ⟨m, by simp, h2⟩
    · obtain ⟨m2, hm2, hp⟩ := h1
      exact Or.inr ⟨m2, by simp [hm2], hp⟩

lemma keyIn_upsertBatch_of {b : List MarketSnapshot} :
    ∀ {s : Store} {k : String}, keyIn s k = true →
      keyIn (upsertBatch s b) k = true := by
  induction b with
  | nil => intro s k h; exact h
  | cons m rest ih => intro s k h; exact ih (keyIn_dictSet_of h)

lemma keyIn_upsertBatch_mem {b : List MarketSnapshot} :
    ∀ {s : Store} {m : MarketSnapshot}, m ∈ b →
      keyIn (upsertBatch s b) m.market_id = true := by
  induction b with
  | nil => intro s m h; cases h
  | cons m0 rest ih =>
    intro s m h
    rcases List.mem_cons.mp h with h1 | h1
    · subst h1
      rw [upsertBatch_cons]
      exact keyIn_upsertBatch_of keyIn_dictSet_self
    · rw [upsertBatch_cons]
      exact ih h1

lemma lookupLast_nil {k : String} : lookupLast [] k = none := rfl

lemma lookupLast_cons_eq_none {m : MarketSnapshot} {b : List MarketSnapshot}
    {k : String} (h : lookupLast (m :: b) k = none) :
    lookupLast b k = none ∧ m.market_id ≠ k := by
  unfold lookupLast at h
  constructor
  · cases hb : lookupLast b k with
    | none => rfl
    | some v => rw [hb] at h; cases h
  · intro hk
    cases hb : lookupLast b k with
    | none => rw [hb] at h; simp [hk] at h
    | some v => rw [hb] at h; cases h

lemma upsertBatch_frame {b : List MarketSnapshot} :
    ∀ {s : Store} {p : String × MarketSnapshot}, p ∈ upsertBatch s b →
      lookupLast b p.1 = none → p ∈ s := by
  induction b with
  | nil => intro s p h _; exact h
  | cons m rest ih =>
    intro s p h hl
    obtain ⟨hrest, hne⟩ := lookupLast_cons_eq_none hl
    rw [upsertBatch_cons] at h
    rcases mem_dictSet (ih h hrest) with h1 | h1
    · exact h1
    · exact absurd (by rw [h1]) hne.symm

lemma upsertBatch_lookupLast {b : List MarketSnapshot} :
    ∀ {s : Store} {p : String × MarketSnapshot} {v : MarketSnapshot},
      p ∈ upsertBatch s b → lookupLast b p.1 = some v → p.2 = v := by
  induction b with
  | nil => intro s p v _ hl; cases hl
  | cons m rest ih =>
    intro s p v h hl
    rw [upsertBatch_cons] at h
    cases hrest : lookupLast rest p.1 with
    | some v2 =>
      have : lookupLast (m :: rest) p.1 = some v2 := by
        unfold lookupLast
        rw [hrest]
      rw [this] at hl
      cases hl
      exact ih h hrest
    | none =>
      have hl2 : (if m.market_id == p.1 then some m else none) = some v := by
        unfold lookupLast at hl
        rw [hrest] at hl
        exact hl
      by_cases hk : m.market_id = p.1
      · rw [if_pos (by simp [hk])] at hl2
        cases hl2
        have hmem : p ∈ dictSet s m.market_id m := upsertBatch_frame h hrest
        have := dictSet_key_eq hmem hk.symm
        rw [this]
      · rw [if_neg (by simp [hk])] at hl2
        cases hl2

lemma replace_fst {p : String × MarketSnapshot} {k0 : String}
    {v0 : MarketSnapshot} :
    (if p.1 == k0 then (k0, v0) else p).1 = p.1 := by
  by_cases hp : p.1 = k0
  · simp [hp]
  · simp [hp]

lemma keyIn_map_replace {s : Store} {k0 k : String} {v0 : MarketSnapshot} :
    keyIn (s.map fun p => if p.1 == k0 then (k0, v0) else p) k = keyIn s k := by
  cases h : keyIn s k with
  | true =>
    obtain ⟨p, hp, hpk⟩ := keyIn_iff.mp h
    exact keyIn_iff.mpr ⟨_, List.mem_map.mpr ⟨p, hp, rfl⟩, by rw [replace_fst, hpk]⟩
  | false =>
    rw [keyIn_eq_false_iff]
    intro q hq
    obtain ⟨p, hp, hfp⟩ := List.mem_map.mp hq
    rw [← hfp, replace_fst]
    exact keyIn_eq_false_iff.mp h p hp

lemma lookupLast_cons {m : MarketSnapshot} {b : List MarketSnapshot}
    {k : String} :
    lookupLast (m :: b) k =
      match lookupLast b k with
      | some v => some v
      | none => if m.market_id == k then some m else none := rfl

lemma applyLast_nil {p : String × MarketSnapshot} : applyLast [] p = p := rfl

lemma applyLast_cons {m : MarketSnapshot} {b : List MarketSnapshot}
    {p : String × MarketSnapshot} :
    applyLast (m :: b) p =
      applyLast b (if p.1 == m.market_id then (m.market_id, m) else p) := by
  by_cases hp : p.1 = m.market_id
  · rw [if_pos (by simp [hp])]
    cases hrl : lookupLast b p.1 with
    | some v =>
      have h1 : applyLast (m :: b) p = (p.1, v) := by
        unfold applyLast
        rw [lookupLast_cons, hrl]
      have h2 : applyLast b (m.market_id, m) = (m.market_id, v) := by
        unfold applyLast
        have hl : lookupLast b (m.market_id, m).1 = some v := by
          show lookupLast b m.market_id = some v
          rw [← hp]
          exact hrl
        rw [hl]
      rw [h1, h2, hp]
    | none =>
      have h1 : applyLast (m :: b) p = (p.1, m) := by
        unfold applyLast
        rw [lookupLast_cons, hrl]
        simp [hp]
      have h2 : applyLast b (m.market_id, m) = (m.market_id, m) := by
        unfold applyLast
        have hl : lookupLast b (m.market_id, m).1 = none := by
          show lookupLast b m.market_id = none
          rw [← hp]
          exact hrl
        rw [hl]
      rw [h1, h2, hp]
  · rw [if_neg (by simp [hp])]
    unfold applyLast
    rw [lookupLast_cons]
    cases hrl : lookupLast b p.1 with
    | some v => rfl
    | none =>
      have hne : (m.market_id == p.1) = false := by
        simp
        intro hc
        exact hp hc.symm
      rw [hne]
      simp

lemma upsertBatch_all_present {b : List MarketSnapshot} :
    ∀ {s : Store}, (∀ m ∈ b, keyIn s m.market_id = true) →
      upsertBatch s b = s.map (applyLast b) := by
  induction b with
  | nil =>
    intro s _
    rw [upsertBatch_nil]
    have h0 : ∀ p ∈ s, applyLast [] p = p := fun p _ => applyLast_nil
    rw [List.map_congr_left h0]
    simp
  | cons m rest ih =>
    intro s hall
    have hm : keyIn s m.market_id = true := hall m (by simp)
    rw [upsertBatch_cons]
    have hset : dictSet s m.market_id m =
        s.map fun p => if p.1 == m.market_id then (m.market_id, m) else p := by
      unfold dictSet
      rw [if_pos hm]
    rw [hset]
    have hrest : ∀ m2 ∈ rest,
        keyIn (s.map fun p => if p.1 == m.market_id then (m.market_id, m) else p)
          m2.market_id = true := by
      intro m2 hm2
      rw [keyIn_map_replace]
      exact hall m2 (by simp [hm2])
    rw [ih hrest, List.map_map]
    apply List.map_congr_left
    intro p _
    show applyLast rest (if p.1 == m.market_id then (m.market_id, m) else p) =
      applyLast (m :: rest) p
    exact applyLast_cons.symm

/-- C7: upserting the same snapshot batch twice in a row yields exactly
the same store state as upserting it once — `self.markets.update` with
an identical key-to-record dict overwrites every affected key with the
value it already holds and appends nothing new. -/
theorem snapshot_ingestion_idempotent (store : Store)
    (batch : List MarketSnapshot) :
    upsertBatch (upsertBatch store batch) batch = upsertBatch store batch := by
  have hall : ∀ m ∈ batch, keyIn (upsertBatch store batch) m.market_id = true :=
    fun m hm => keyIn_upsertBatch_mem hm
  rw [upsertBatch_all_present hall]
  have hid : ∀ p ∈ upsertBatch store batch, applyLast batch p = p := by
    intro p hp
    unfold applyLast
    cases hl : lookupLast batch p.1 with
    | none => rfl
    | some v =>
      have hv := upsertBatch_lookupLast hp hl
      rw [← hv]
  rw [List.map_congr_left hid]
  simp

/-- C5: applying a stream update whose market_id is absent from the
store leaves the store completely unchanged — the handler's membership
test fails and no write happens, so no entry is inserted, the size is
unchanged and no existing entry is modified. -/
theorem unknown_id_update_leaves_store_unchanged (store : Store)
    (msg : StreamMessage) (h : keyIn store msg.market_id = false) :
    handleMessage store msg = store := by
  unfold handleMessage applyUpdate
  rw [h]
  simp

/-- Witness for C5: a store holding market "A" and an update for the
unknown market "Z". -/
theorem unknown_id_update_leaves_store_unchanged_witness :
    handleMessage [("A", snapDemoA)] msgDemoZ = [("A", snapDemoA)] :=
  unknown_id_update_leaves_store_unchanged _ _ (by decide)

/-- C6: applying a stream update for a market_id present in the store
changes only that entry's two prices: the keys and their order are
unchanged, every entry under a different key is exactly the entry the
store held before, and the touched entry keeps its market_id, spread,
volume_usd and category while receiving the new prices. -/
theorem known_id_update_frame (store : Store) (msg : StreamMessage)
    (htype : msg.type = "orderbook_update")
    (h : keyIn store msg.market_id = true) :
    (handleMessage store msg).map Prod.fst = store.map Prod.fst ∧
    (handleMessage store msg).filter (fun p => p.1 != msg.market_id) =
      store.filter (fun p => p.1 != msg.market_id) ∧
    (handleMessage store msg).filter (fun p => p.1 == msg.market_id) =
      (store.filter (fun p => p.1 == msg.market_id)).map
        (fun p => (p.1,
          { market_id := p.2.market_id, yes_price := msg.yes_bid,
            no_price := msg.no_ask, spread := p.2.spread,
            volume_usd := p.2.volume_usd, category := p.2.category })) := by
  have hH : handleMessage store msg =
      store.map fun p =>
        if p.1 == msg.market_id then
          (p.1, { p.2 with yes_price := msg.yes_bid, no_price := msg.no_ask })
        else p := by
    unfold handleMessage applyUpdate
    rw [htype, h]
    simp
  refine ⟨?_, ?_, ?_⟩
  · rw [hH, List.map_map]
    apply List.map_congr_left
    intro p _
    show (if p.1 == msg.market_id then
        (p.1, { p.2 with yes_price := msg.yes_bid, no_price := msg.no_ask })
      else p).1 = p.1
    by_cases hp : p.1 = msg.market_id
    · simp [hp]
    · simp [hp]
  · rw [hH, List.filter_map]
    have hpred : ∀ p ∈ store,
        ((fun q : String × MarketSnapshot => q.1 != msg.market_id) ∘ fun p =>
          if p.1 == msg.market_id then
            (p.1, { p.2 with yes_price := msg.yes_bid, no_price := msg.no_ask })
          else p) p = (p.1 != msg.market_id) := by
      intro p _
      by_cases hp : p.1 = msg.market_id
      · simp [hp]
      · simp [hp]
    rw [List.filter_congr hpred]
    have hid : ∀ p ∈ store.filter (fun q => q.1 != msg.market_id),
        (if p.1 == msg.market_id then
          (p.1, { p.2 with yes_price := msg.yes_bid, no_price := msg.no_ask })
        else p) = p := by
      intro p hp
      have := List.of_mem_filter hp
      simp at this
      simp [this]
    rw [List.map_congr_left hid]
    simp
  · rw [hH, List.filter_map]
    have hpred : ∀ p ∈ store,
        ((fun q : String × MarketSnapshot => q.1 == msg.market_id) ∘ fun p =>
          if p.1 == msg.market_id then
            (p.1, { p.2 with yes_price := msg.yes_bid, no_price := msg.no_ask })
          else p) p = (p.1 == msg.market_id) := by
      intro p _
      by_cases hp : p.1 = msg.market_id
      · simp [hp]
      · simp [hp]
    rw [List.filter_congr hpred]
    apply List.map_congr_left
    intro p hp
    have := List.of_mem_filter hp
    simp at this
    simp [this]

/-- Witness for C6: a two-market store and an update addressed to the
known market "A" with new prices YES=1, NO=1. -/
theorem known_id_update_frame_witness :
    (handleMessage [("A", snapDemoA), ("B", snapDemoB)] msgDemoA).map Prod.fst =
      [("A", snapDemoA), ("B", snapDemoB)].map Prod.fst ∧
    (handleMessage [("A", snapDemoA), ("B", snapDemoB)] msgDemoA).filter
        (fun p => p.1 != msgDemoA.market_id) =
      [("A", snapDemoA), ("B", snapDemoB)].filter
        (fun p => p.1 != msgDemoA.market_id) ∧
    (handleMessage [("A", snapDemoA), ("B", snapDemoB)] msgDemoA).filter
        (fun p => p.1 == msgDemoA.market_id) =
      ([("A", snapDemoA), ("B", snapDemoB)].filter
        (fun p => p.1 == msgDemoA.market_id)).map
        (fun p => (p.1,
          { market_id := p.2.market_id, yes_price := msgDemoA.yes_bid,
            no_price := msgDemoA.no_ask, spread := p.2.spread,
            volume_usd := p.2.volume_usd, category := p.2.category })) :=
  known_id_update_frame _ _ (by decide) (by decide)

/-- C1 (evidence of the code bug): seed the store with market "A"
(YES=1, NO=0, spread=1) through the snapshot path, then apply an
`orderbook_update` for "A" with yes_bid=1, no_ask=1. The handler
stores the new prices but leaves `spread` at 1, while
`abs(yes_price - no_price)` is now 0: the invariant
`spread == abs(yes_price - no_price)` is broken by the stream path,
which never recomputes the spread. -/
theorem spread_stale_after_stream_update :
    processRecords [rawDemoA] = .ok [snapDemoA] ∧
    handleMessage (upsertBatch [] [snapDemoA]) msgDemoA =
      [("A", { market_id := "A", yes_price := 1, no_price := 1, spread := 1,
               volume_usd := 2000000, category := "politics" })] ∧
    (1 : ℚ) ≠ |(1 : ℚ) - (1 : ℚ)| := by
  refine ⟨?_, by decide, by norm_num⟩
  norm_num [processRecords, mkSnapshot, volume24hOrZero, rawDemoA, snapDemoA,
    Except.map]

/-- C3 (counterexample to the claim as stated): a batch holding the
well-formed record "A" and a record "M" with a single outcome price.
The claim says "M" is skipped and the rest of the batch is still
ingested; in fact the subscript `m["outcomes"][1]` raises, the whole
fetch aborts, and nothing — not even "A" — is returned or ingested. -/
theorem malformed_record_fatal_to_batch :
    processRecords [rawDemoA, rawMalformed] =
      .error "IndexError: outcomes[1]" ∧
    fetchAndIngest [] [rawDemoA, rawMalformed] =
      .error "IndexError: outcomes[1]" := by
  constructor
  · rfl
  · rfl

lemma mkSnapshot_error_of_short {m : RawMarket}
    (hlen : m.outcomes.length < 2) : ∃ e, mkSnapshot m = .error e := by
  have h1 : m.outcomes[1]? = none := List.getElem?_eq_none (by omega)
  cases h0 : m.outcomes[0]? with
  | none =>
    exact ⟨"IndexError: outcomes[0]", by unfold mkSnapshot; rw [h0]⟩
  | some o0 =>
    exact ⟨"IndexError: outcomes[1]", by unfold mkSnapshot; rw [h0, h1]⟩

lemma processRecords_error_of_malformed :
    ∀ {data : List RawMarket},
      (∃ m ∈ data, volume24hOrZero m > 1000000 ∧ m.outcomes.length < 2) →
      exceptFailed (processRecords data) = true := by
  intro data
  induction data with
  | nil =>
    rintro ⟨m, hm, _⟩
    cases hm
  | cons m0 rest ih =>
    rintro ⟨m, hm, hvol, hlen⟩
    rcases List.mem_cons.mp hm with heq | hmr
    · subst heq
      unfold processRecords
      rw [if_pos hvol]
      obtain ⟨e, he⟩ := mkSnapshot_error_of_short hlen
      rw [he]
      rfl
    · unfold processRecords
      by_cases hv : volume24hOrZero m0 > 1000000
      · rw [if_pos hv]
        have hrest := ih ⟨m, hmr, hvol, hlen⟩
        cases hs : mkSnapshot m0 with
        | ok s =>
          cases hr : processRecords rest with
          | ok ms =>
            rw [hr] at hrest
            simp [exceptFailed] at hrest
          | error e => rfl
        | error e => rfl
      · rw [if_neg hv]
        exact ih ⟨m, hmr, hvol, hlen⟩

/-- C3 (amended): a record that passes the volume filter but carries
fewer than two outcome prices makes the whole fetch raise: the batch
loop aborts at that record and, since the store update only runs after
a successful loop, nothing from the batch is ingested. -/
theorem malformed_record_aborts_whole_fetch (store : Store)
    (data : List RawMarket)
    (h : ∃ m ∈ data, volume24hOrZero m > 1000000 ∧ m.outcomes.length < 2) :
    exceptFailed (processRecords data) = true ∧
    exceptFailed (fetchAndIngest store data) = true := by
  have h1 := processRecords_error_of_malformed h
  refine ⟨h1, ?_⟩
  unfold fetchAndIngest
  cases hr : processRecords data with
  | ok ms =>
    rw [hr] at h1
    cases h1
  | error e => rfl

/-- Witness for the amended C3 at the concrete two-record batch. -/
theorem malformed_record_aborts_whole_fetch_witness :
    exceptFailed (processRecords [rawDemoA, rawMalformed]) = true ∧
    exceptFailed (fetchAndIngest [] [rawDemoA, rawMalformed]) = true :=
  malformed_record_aborts_whole_fetch [] [rawDemoA, rawMalformed]
    ⟨rawMalformed, by decide, by decide, by decide⟩

lemma processRecords_cons {m : RawMarket} {rest : List RawMarket} :
    processRecords (m :: rest) =
      if volume24hOrZero m > 1000000 then
        match mkSnapshot m with
        | .ok s => (processRecords rest).map fun ms => s :: ms
        | .error e => .error e
      else processRecords rest := by
  conv_lhs => rw [processRecords.eq_def]

lemma processRecords_cons_congr {m : RawMarket} {L1 L2 : List RawMarket}
    (h : processRecords L1 = processRecords L2) :
    processRecords (m :: L1) = processRecords (m :: L2) := by
  unfold processRecords
  rw [h]

/-- C10: a discovery record with no 24h-volume field is treated as
volume 0 by `m.get("volume24h", 0)`, fails the strict 1,000,000 filter,
and therefore contributes nothing: the fetch result and the ingested
store are the same as if the record were not in the batch at all. -/
theorem missing_volume_field_record_excluded (store : Store)
    (pre post : List RawMarket) (m : RawMarket) (h : m.volume24h = none) :
    processRecords (pre ++ m :: post) = processRecords (pre ++ post) ∧
    fetchAndIngest store (pre ++ m :: post) =
      fetchAndIngest store (pre ++ post) := by
  have hmain : ∀ pre2 : List RawMarket,
      processRecords (pre2 ++ m :: post) = processRecords (pre2 ++ post) := by
    intro pre2
    induction pre2 with
    | nil =>
      show processRecords (m :: post) = processRecords post
      have hv : ¬ volume24hOrZero m > 1000000 := by
        unfold volume24hOrZero
        rw [h]
        norm_num
      rw [processRecords_cons, if_neg hv]
    | cons a pre3 ih =>
      exact processRecords_cons_congr ih
  refine ⟨hmain pre, ?_⟩
  unfold fetchAndIngest
  rw [hmain pre]

/-- Witness for C10: the volume-less record "N" placed between two
well-formed records changes neither the fetch result nor the store. -/
theorem missing_volume_field_record_excluded_witness :
    processRecords ([rawDemoA] ++ rawNoVolume :: [rawDemoB]) =
      processRecords ([rawDemoA] ++ [rawDemoB]) ∧
    fetchAndIngest [] ([rawDemoA] ++ rawNoVolume :: [rawDemoB]) =
      fetchAndIngest [] ([rawDemoA] ++ [rawDemoB]) :=
  missing_volume_field_record_excluded [] [rawDemoA] [rawDemoB] rawNoVolume rfl

lemma processRecords_mem :
    ∀ {data : List RawMarket} {ms : List MarketSnapshot},
      processRecords data = .ok ms →
      ∀ x ∈ ms, ∃ m ∈ data, volume24hOrZero m > 1000000 ∧ mkSnapshot m = .ok x := by
  intro data
  induction data with
  | nil =>
    intro ms h x hx
    injection h with h2
    subst h2
    cases hx
  | cons m0 rest ih =>
    intro ms h x hx
    rw [processRecords_cons] at h
    by_cases hv : volume24hOrZero m0 > 1000000
    · rw [if_pos hv] at h
      cases hs : mkSnapshot m0 with
      | error e =>
        rw [hs] at h
        cases h
      | ok s =>
        rw [hs] at h
        cases hr : processRecords rest with
        | error e =>
          rw [hr] at h
          cases h
        | ok ms2 =>
          rw [hr] at h
          have hms : s :: ms2 = ms := by
            injection h
          rw [← hms] at hx
          rcases List.mem_cons.mp hx with heq | hxr
          · subst heq
            exact ⟨m0, by simp, hv, hs⟩
          · obtain ⟨m, hm, hm2, hm3⟩ := ih hr x hxr
            exact ⟨m, by simp [hm], hm2, hm3⟩
    · rw [if_neg hv] at h
      obtain ⟨m, hm, hm2, hm3⟩ := ih h x hx
      exact ⟨m, by simp [hm], hm2, hm3⟩

lemma mkSnapshot_ok_fields {m : RawMarket} {x : MarketSnapshot}
    (h : mkSnapshot m = .ok x) :
    ∃ o0 o1, m.outcomes[0]? = some o0 ∧ m.outcomes[1]? = some o1 ∧
      x.yes_price = o0.price ∧ x.no_price = o1.price ∧
      x.spread = |o0.price - o1.price| ∧ x.volume_usd = volume24hOrZero m := by
  unfold mkSnapshot at h
  cases h0 : m.outcomes[0]? with
  | none =>
    rw [h0] at h
    cases h
  | some o0 =>
    cases h1 : m.outcomes[1]? with
    | none =>
      rw [h0, h1] at h
      cases h
    | some o1 =>
      cases h2 : m.volume24h with
      | none =>
        rw [h0, h1, h2] at h
        cases h
      | some v =>
        rw [h0, h1, h2] at h
        injection h with hx
        subst hx
        refine ⟨o0, o1, rfl, rfl, rfl, rfl, rfl, ?_⟩
        unfold volume24hOrZero
        rw [h2]
        rfl

/-- C8: every snapshot returned by the fetch has volume_usd strictly
above 1,000,000, and every entry of the store after the snapshot upsert
either predates the fetch or has volume_usd strictly above 1,000,000 —
the strict `>` filter runs before the list is built, returned, and
ingested. -/
theorem snapshot_records_exceed_volume_threshold (store : Store)
    (data : List RawMarket) (ms : List MarketSnapshot)
    (h : processRecords data = .ok ms) :
    (ms.all fun x => decide (1000000 < x.volume_usd)) = true ∧
    ((upsertBatch store ms).all fun p =>
      decide (p ∈ store) || decide (1000000 < p.2.volume_usd)) = true := by
  have hall : ∀ x ∈ ms, 1000000 < x.volume_usd := by
    intro x hx
    obtain ⟨m, _, hv, hs⟩ := processRecords_mem h x hx
    obtain ⟨o0, o1, _, _, _, _, _, hvol⟩ := mkSnapshot_ok_fields hs
    rw [hvol]
    exact hv
  constructor
  · rw [List.all_eq_true]
    intro x hx
    exact decide_eq_true (hall x hx)
  · rw [List.all_eq_true]
    intro p hp
    rcases mem_upsertBatch hp with h1 | ⟨m2, hm2, hp2⟩
    · simp [h1]
    · have h2 : 1000000 < p.2.volume_usd := by
        rw [hp2]
        exact hall m2 hm2
      simp [h2]

/-- Witness for C8: a store already holding a low-volume legacy entry
"L", ingesting the concrete batch ["A"]. -/
theorem snapshot_records_exceed_volume_threshold_witness :
    (([snapDemoA] : List MarketSnapshot).all
      fun x => decide (1000000 < x.volume_usd)) = true ∧
    ((upsertBatch [("L", snapLowVol)] [snapDemoA]).all fun p =>
      decide (p ∈ [("L", snapLowVol)]) ||
      decide (1000000 < p.2.volume_usd)) = true :=
  snapshot_records_exceed_volume_threshold _ [rawDemoA] [snapDemoA]
    (by norm_num [processRecords, mkSnapshot, volume24hOrZero, rawDemoA,
      snapDemoA, Except.map])

lemma keyCoherent_upsertBatch {s : Store} {b : List MarketSnapshot}
    (hs : keyCoherent s = true) : keyCoherent (upsertBatch s b) = true := by
  rw [keyCoherent, List.all_eq_true]
  intro p hp
  rcases mem_upsertBatch hp with h1 | ⟨m, _, hp2⟩
  · exact List.all_eq_true.mp hs p h1
  · rw [hp2]
    simp

lemma keyCoherent_handleMessage {s : Store} {msg : StreamMessage}
    (hs : keyCoherent s = true) : keyCoherent (handleMessage s msg) = true := by
  unfold handleMessage applyUpdate
  split
  · split
    · rw [keyCoherent, List.all_eq_true]
      intro p hp
      obtain ⟨q, hq, hfq⟩ := List.mem_map.mp hp
      rw [← hfq]
      by_cases hqk : q.1 = msg.market_id
      · simp only [hqk, beq_self_eq_true, if_pos]
        have := List.all_eq_true.mp hs q hq
        simp at this
        simp [this, hqk]
      · simp only [show (q.1 == msg.market_id) = false by simp [hqk], if_neg,
          Bool.false_eq_true, ite_false]
        exact List.all_eq_true.mp hs q hq
    · exact hs
  · exact hs

/-- C9: in every reachable store state, each dict key maps to a
snapshot whose market_id field equals that key: snapshot ingestion
keys every record by its own market_id, and stream updates rewrite
neither the key nor the market_id field. -/
theorem store_keys_match_market_id (s : Store) (h : Reachable s) :
    keyCoherent s = true := by
  induction h with
  | init => rfl
  | step hr hstep ih =>
    cases hstep with
    | snapshot data ms hok => exact keyCoherent_upsertBatch ih
    | stream msg => exact keyCoherent_handleMessage ih

/-- Witness for C9: the state reached by ingesting the demo batch and
then applying a stream update to "A". -/
theorem store_keys_match_market_id_witness :
    keyCoherent (handleMessage (upsertBatch [] [snapDemoA]) msgDemoA) = true :=
  store_keys_match_market_id _
    (Reachable.step
      (Reachable.step Reachable.init
        (Step.snapshot [] [rawDemoA] [snapDemoA]
          (by norm_num [processRecords, mkSnapshot, volume24hOrZero, rawDemoA,
            snapDemoA, Except.map])))
      (Step.stream _ msgDemoA))

lemma entryOk_of_batch {data : List RawMarket} {ms : List MarketSnapshot}
    (hok : processRecords data = .ok ms) (hin : data.all rawInRange = true) :
    ∀ x ∈ ms, entryOk x = true := by
  intro x hx
  obtain ⟨m, hm, _, hs⟩ := processRecords_mem hok x hx
  obtain ⟨o0, o1, h0, h1, hyes, hno, hsp, _⟩ := mkSnapshot_ok_fields hs
  have hmr : rawInRange m = true := List.all_eq_true.mp hin m hm
  rw [rawInRange, List.all_eq_true] at hmr
  have ht0 : (m.outcomes.take 2)[0]? = m.outcomes[0]? :=
    @List.getElem?_take_of_lt _ m.outcomes 2 0 (by omega)
  have ht1 : (m.outcomes.take 2)[1]? = m.outcomes[1]? :=
    @List.getElem?_take_of_lt _ m.outcomes 2 1 (by omega)
  have ho0 : o0 ∈ m.outcomes.take 2 := List.getElem?_mem (by rw [ht0]; exact h0)
  have ho1 : o1 ∈ m.outcomes.take 2 := List.getElem?_mem (by rw [ht1]; exact h1)
  have r0 := of_decide_eq_true (hmr o0 ho0)
  have r1 := of_decide_eq_true (hmr o1 ho1)
  rw [entryOk, hyes, hno, hsp]
  exact decide_eq_true ⟨r0.1, r0.2, r1.1, r1.2, abs_nonneg _⟩

lemma storeOk_upsertBatch {s : Store} {b : List MarketSnapshot}
    (hs : storeOk s = true) (hb : ∀ x ∈ b, entryOk x = true) :
    storeOk (upsertBatch s b) = true := by
  rw [storeOk, List.all_eq_true]
  intro p hp
  rcases mem_upsertBatch hp with h1 | ⟨m, hm, hp2⟩
  · exact List.all_eq_true.mp hs p h1
  · rw [hp2]
    exact hb m hm

lemma storeOk_handleMessage {s : Store} {msg : StreamMessage}
    (hs : storeOk s = true) (hin : msgInRange msg = true) :
    storeOk (handleMessage s msg) = true := by
  have hr := of_decide_eq_true hin
  unfold handleMessage applyUpdate
  split
  · split
    · rw [storeOk, List.all_eq_true]
      intro p hp
      obtain ⟨q, hq, hfq⟩ := List.mem_map.mp hp
      have hqok := of_decide_eq_true (List.all_eq_true.mp hs q hq)
      rw [← hfq]
      by_cases hqk : q.1 = msg.market_id
      · simp only [hqk, beq_self_eq_true, if_pos]
        exact decide_eq_true
          ⟨hr.1, hr.2.1, hr.2.2.1, hr.2.2.2, hqok.2.2.2.2⟩
      · simp only [show (q.1 == msg.market_id) = false by simp [hqk], if_neg,
          Bool.false_eq_true, ite_false]
        exact List.all_eq_true.mp hs q hq
    · exact hs
  · exact hs

/-- C4: in every store state reachable with in-range feed data — the
spec's data model types venue prices as probabilities in [0,1], and the
code stores whatever it is given — every entry has yes_price and
no_price in [0,1] and a non-negative spread; the snapshot path
establishes the invariant (spread is an absolute value) and the stream
path preserves it (new in-range prices, spread untouched). -/
theorem reachable_store_prices_in_range (s : Store)
    (h : ReachableInRange s) : storeOk s = true := by
  induction h with
  | init => rfl
  | step hr hstep ih =>
    cases hstep with
    | snapshot data ms hok hin =>
      exact storeOk_upsertBatch ih (entryOk_of_batch hok hin)
    | stream msg hin => exact storeOk_handleMessage ih hin

/-- Witness for C4: the state reached by ingesting the demo batch and
then applying an in-range stream update to "A". -/
theorem reachable_store_prices_in_range_witness :
    storeOk (handleMessage (upsertBatch [] [snapDemoA]) msgDemoA) = true :=
  reachable_store_prices_in_range _
    (ReachableInRange.step
      (ReachableInRange.step ReachableInRange.init
        (StepInRange.snapshot [] [rawDemoA] [snapDemoA]
          (by norm_num [processRecords, mkSnapshot, volume24hOrZero, rawDemoA,
            snapDemoA, Except.map])
          (by decide)))
      (StepInRange.stream _ msgDemoA (by decide)))

lemma mergeSort_pair {α : Type} {le : α → α → Bool}
    (htrans : ∀ (a b c : α), le a b → le b c → le a c)
    (htotal : ∀ (a b : α), le a b || le b a)
    {a b : α} (hab : le a b = true) :
    [a, b].mergeSort le = [a, b] := by
  have hpw : List.Pairwise (fun x y => le x y = true) [a, b] := by
    simp [hab]
  have hsub := List.sublist_mergeSort htrans htotal hpw (List.Sublist.refl [a, b])
  exact (hsub.eq_of_length (by simp)).symm

/-- C2 (amended): `get_top_mispricing` returns a sequence sorted by
non-increasing spread; entries with equal spread appear in the store's
insertion order (Python's `sorted` is stable and the implementation has
no `last_updated` field to break ties with); it returns
`min n (store size)` entries — fewer than `n` exactly when the store
holds fewer — and it is a total function, so it never fails. -/
theorem top_by_spread_sorted_stable_bounded (store : Store) (n : Nat) :
    (getTopMispricing store n).Pairwise (fun a b => b.spread ≤ a.spread) ∧
    (∀ q : ℚ, List.Sublist
        ((getTopMispricing store n).filter (fun m => m.spread == q))
        ((values store).filter (fun m => m.spread == q))) ∧
    (getTopMispricing store n).length = min n store.length := by
  have htrans : ∀ (a b c : MarketSnapshot),
      decide (b.spread ≤ a.spread) = true →
      decide (c.spread ≤ b.spread) = true →
      decide (c.spread ≤ a.spread) = true := by
    intro a b c hab hbc
    exact decide_eq_true (le_trans (of_decide_eq_true hbc) (of_decide_eq_true hab))
  have htotal : ∀ (a b : MarketSnapshot),
      (decide (b.spread ≤ a.spread) || decide (a.spread ≤ b.spread)) = true := by
    intro a b
    rcases le_total b.spread a.spread with h | h
    · simp [h]
    · simp [h]
  refine ⟨?_, ?_, ?_⟩
  · have hs := List.sorted_mergeSort htrans htotal (values store)
    have hp := hs.sublist (List.take_sublist n _)
    exact hp.imp fun hab => of_decide_eq_true hab
  · intro q
    have hmem : ∀ x ∈ (values store).filter (fun m => m.spread == q),
        x.spread = q := by
      intro x hx
      have := List.of_mem_filter hx
      simpa using this
    have hpw : ((values store).filter (fun m => m.spread == q)).Pairwise
        (fun a b : MarketSnapshot => decide (b.spread ≤ a.spread) = true) := by
      apply List.pairwise_of_forall_mem_list
      intro a ha b hb
      rw [hmem a ha, hmem b hb]
      simp
    have h1 := List.sublist_mergeSort htrans htotal hpw
      (List.filter_sublist (values store))
    have h2 : ((values store).filter (fun m => m.spread == q)).filter
        (fun m => m.spread == q) =
        (values store).filter (fun m => m.spread == q) := by
      rw [List.filter_eq_self]
      intro a ha
      have := hmem a ha
      simp [this]
    have h3 := h1.filter (fun m => m.spread == q)
    rw [h2] at h3
    have h4 := (List.mergeSort_perm (values store)
      (fun a b => decide (b.spread ≤ a.spread))).filter (fun m => m.spread == q)
    have h5 : ((values store).mergeSort
          (fun a b => decide (b.spread ≤ a.spread))).filter
            (fun m => m.spread == q) =
        (values store).filter (fun m => m.spread == q) :=
      (h3.eq_of_length h4.length_eq.symm).symm
    have h6 := (List.take_sublist n ((values store).mergeSort
      (fun a b => decide (b.spread ≤ a.spread)))).filter
        (fun m => m.spread == q)
    rw [h5] at h6
    exact h6
  · simp [getTopMispricing, values]

/-- C2 (counterexample to the recency tie-break as the spec states
it): two markets "A" and "B" with equal spread are ingested together,
then "B" alone receives a stream update, giving it the strictly later
`last_updated` ghost timestamp. The query still returns "A" first —
Python's stable sort keeps insertion order on equal spreads and
consults no timestamp — so the entry with the later `last_updated`
does not precede. -/
theorem top_by_spread_recency_tiebreak_fails :
    ¬ recencyTieBreak
        (tGetTopMispricing
          (tApplyUpdate (tUpsertBatch [] [snapDemoA, snapDemoB] 0) "B" 1 0 1)
          2) := by
  have h1 : tApplyUpdate (tUpsertBatch [] [snapDemoA, snapDemoB] 0) "B" 1 0 1 =
      [("A", snapDemoA, 0),
       ("B", { market_id := "B", yes_price := 1, no_price := 0, spread := 1,
               volume_usd := 3000000, category := "politics" }, 1)] := by
    decide
  rw [h1]
  have htrans : ∀ (a b c : MarketSnapshot × ℕ),
      decide (b.1.spread ≤ a.1.spread) = true →
      decide (c.1.spread ≤ b.1.spread) = true →
      decide (c.1.spread ≤ a.1.spread) = true := by
    intro a b c hab hbc
    exact decide_eq_true (le_trans (of_decide_eq_true hbc) (of_decide_eq_true hab))
  have htotal : ∀ (a b : MarketSnapshot × ℕ),
      (decide (b.1.spread ≤ a.1.spread) || decide (a.1.spread ≤ b.1.spread)) = true := by
    intro a b
    rcases le_total b.1.spread a.1.spread with h | h
    · simp [h]
    · simp [h]
  have h2 : tGetTopMispricing
      [("A", snapDemoA, 0),
       ("B", { market_id := "B", yes_price := 1, no_price := 0, spread := 1,
               volume_usd := 3000000, category := "politics" }, 1)] 2 =
      [(snapDemoA, 0),
       ({ market_id := "B", yes_price := 1, no_price := 0, spread := 1,
          volume_usd := 3000000, category := "politics" }, 1)] := by
    unfold tGetTopMispricing
    rw [show ([("A", snapDemoA, 0),
       ("B", { market_id := "B", yes_price := 1, no_price := 0, spread := 1,
               volume_usd := 3000000, category := "politics" }, 1)].map
        Prod.snd) =
      [(snapDemoA, 0),
       ({ market_id := "B", yes_price := 1, no_price := 0, spread := 1,
          volume_usd := 3000000, category := "politics" }, 1)] from rfl]
    rw [mergeSort_pair htrans htotal (by decide)]
    rfl
  rw [h2]
  intro hcontra
  rw [recencyTieBreak, List.pairwise_cons] at hcontra
  have hB := hcontra.1
    ({ market_id := "B", yes_price := 1, no_price := 0, spread := 1,
       volume_usd := 3000000, category := "politics" }, 1)
    (by simp) (by decide)
  exact absurd hB (by decide)
